import Mathlib

set_option maxRecDepth 8000

/-!
Verification of the ECG heart-rate / waveform-component pipeline of this
repository (src/plot.py, src/generate.py, src/new.py).

Real numbers of the Python/numpy code are modelled as rationals (ℚ).
`np.std` produces square roots, which are generally irrational; functions
that consume a standard deviation therefore take it as an explicit argument
`s`, constrained where needed by the predicate `IsStd` (`0 ≤ s` and `s ^ 2`
equals the population variance, so `s` is exactly numpy's `std` whenever
that root is rational, as it is at every concrete input used below).
-/

/-- Python `int(q)`: truncation toward zero. -/
def pyInt (q : ℚ) : ℤ := if 0 ≤ q then ⌊q⌋ else ⌈q⌉

/-- numpy `np.diff`: consecutive differences. -/
def npDiff : List ℚ → List ℚ
  | a :: b :: rest => (b - a) :: npDiff (b :: rest)
  | _ => []

/-- numpy `np.mean` (callers guard against the empty list, where numpy yields NaN;
the ℚ value 0 returned here is then never used). -/
def mean (l : List ℚ) : ℚ := l.sum / (l.length : ℚ)

/-- Sum of squared deviations from `m`. -/
def sqDevSum (l : List ℚ) (m : ℚ) : ℚ := (l.map (fun x => (x - m) ^ 2)).sum

/-- Population variance, as `np.std(...)**2` computes it (ddof = 0). -/
def variance (l : List ℚ) : ℚ := sqDevSum l (mean l) / (l.length : ℚ)

/-- Predicate: `s` is exactly `np.std l`: the nonnegative square root of the variance. -/
def IsStd (l : List ℚ) (s : ℚ) : Prop := 0 ≤ s ∧ s ^ 2 = variance l

instance (l : List ℚ) (s : ℚ) : Decidable (IsStd l s) := by
  unfold IsStd; infer_instance

/-- Python slice `l[a:b]` (for `a ≤ b`; clamps at the end of the list). -/
def segOf (l : List ℚ) (a b : ℕ) : List ℚ := (l.drop a).take (b - a)

/-- Python slice `l[-k:]` for `k ≤ len l`. -/
def lastN (l : List ℚ) (k : ℕ) : List ℚ := l.drop (l.length - k)

/-- numpy `np.argmax` bookkeeping: scans `rest` (whose head sits at absolute index
`i`) carrying the best index `bi` and best value `bv` seen so far; a new
best requires a strictly larger value, so the FIRST maximum wins, exactly
as in numpy. -/
def argmaxAux : List ℚ → ℕ → ℕ → ℚ → ℕ × ℚ
  | [], _, bi, bv => (bi, bv)
  | x :: rest, i, bi, bv =>
      if bv < x then argmaxAux rest (i + 1) i x else argmaxAux rest (i + 1) bi bv

/-- numpy `np.argmax` together with the maximal value. -/
def argmaxP : List ℚ → ℕ × ℚ
  | [] => (0, 0)
  | x :: rest => argmaxAux rest 1 0 x

/-- numpy `np.argmax`: index of the first maximal element. -/
def argmaxList (l : List ℚ) : ℕ := (argmaxP l).1

/-- numpy `np.argmin` bookkeeping, first minimum wins. -/
def argminAux : List ℚ → ℕ → ℕ → ℚ → ℕ × ℚ
  | [], _, bi, bv => (bi, bv)
  | x :: rest, i, bi, bv =>
      if x < bv then argminAux rest (i + 1) i x else argminAux rest (i + 1) bi bv

/-- numpy `np.argmin` together with the minimal value. -/
def argminP : List ℚ → ℕ × ℚ
  | [] => (0, 0)
  | x :: rest => argminAux rest 1 0 x

/-- numpy `np.argmin`: index of the first minimal element. -/
def argminList (l : List ℚ) : ℕ := (argminP l).1

/-!
## R-peak detection, strategy (a)

Modelled from the spec: `scipy.signal.find_peaks` is an external library
dependency, not part of this repository's sources.  The spec describes the
pass as locating local maxima in voltage exceeding an amplitude threshold,
enforcing a minimum separation (in samples) between accepted peaks.
-/

/-- Strict local maxima of the signal: indices `i` (the head of the list
passed in sits at absolute index `k`) with a strictly smaller neighbour on
each side. -/
def localMaximaAux : List ℚ → ℕ → List ℕ
  | a :: b :: c :: rest, k =>
      (if a < b ∧ c < b then [k + 1] else []) ++ localMaximaAux (b :: c :: rest) (k + 1)
  | _, _ => []

/-- Strict local maxima of the whole signal. -/
def localMaxima (d : List ℚ) : List ℕ := localMaximaAux d 0

/-- One step of minimum-separation selection: append the candidate if no
peak was accepted yet, or if the test against the last accepted peak
passes. -/
def selectStep (test : ℕ → ℕ → Bool) (acc : List ℕ) (i : ℕ) : List ℕ :=
  if h : acc = [] then [i]
  else if test (acc.getLast h) i then acc ++ [i] else acc

/-- Minimum-separation selection over a candidate list. -/
def selectBySep (test : ℕ → ℕ → Bool) (cands : List ℕ) : List ℕ :=
  cands.foldl (selectStep test) []

/-- Modelled from the spec: `scipy.signal.find_peaks(d, height, distance)` —
local maxima, kept when their height is at least `height`, then pruned so
that accepted peaks are at least `dist` samples apart. -/
def find_peaks_model (d : List ℚ) (height dist : ℚ) : List ℕ :=
  selectBySep (fun j i => decide ((j : ℚ) + dist ≤ (i : ℚ)))
    ((localMaxima d).filter (fun i => decide (height ≤ d.getD i 0)))

/-!
## R-peak detection, strategy (b): threshold crossing + run grouping
(`_simple_hr_calculation`, src/plot.py lines 904-923)
-/

/-- Indices of samples strictly above the threshold
(`np.where(recent_data > threshold)`); head of the list passed in sits at
absolute index `k`. -/
def aboveThresholdAux (θ : ℚ) : List ℚ → ℕ → List ℕ
  | [], _ => []
  | x :: rest, k => (if θ < x then [k] else []) ++ aboveThresholdAux θ rest (k + 1)

/-- Indices of samples strictly above the threshold. -/
def aboveThresholdIdx (data : List ℚ) (θ : ℚ) : List ℕ := aboveThresholdAux θ data 0

/-- Grouping of consecutive indices
(`np.split(above_threshold, np.where(np.diff(above_threshold) != 1)[0] + 1)`). -/
def groupConsecutive : List ℕ → List (List ℕ)
  | [] => []
  | i :: rest =>
      match groupConsecutive rest with
      | [] => [[i]]
      | [] :: gs => [i] :: gs
      | (j :: g) :: gs =>
          if i + 1 = j then (i :: j :: g) :: gs else [i] :: (j :: g) :: gs

/-- In-run peak: `group[np.argmax([recent_data[i] for i in group])]`. -/
def groupPeak (data : List ℚ) (g : List ℕ) : ℕ :=
  g.getD (argmaxList (g.map (fun i => data.getD i 0))) 0

/-- Acceptance loop of the fallback detector: a run peak is appended when
the peak list is empty or it lies strictly more than `0.4 * fs` samples
after the last accepted peak. -/
def acceptPeaks (fs : ℕ) (cands : List ℕ) : List ℕ :=
  selectBySep (fun j i => decide ((fs : ℚ) * (2 / 5) < (i : ℚ) - (j : ℚ))) cands

/-- The fallback pipeline with an arbitrary amplitude threshold θ:
threshold crossing, run grouping, in-run maxima, minimum-separation
acceptance. -/
def thresholdGroupPeaks (data : List ℚ) (fs : ℕ) (θ : ℚ) : List ℕ :=
  acceptPeaks fs
    (((groupConsecutive (aboveThresholdIdx data θ)).filter
        (fun g => decide (0 < g.length))).map (groupPeak data))

/-- Peaks of `_simple_hr_calculation`: the threshold is
`np.mean(recent_data) + 1.5 * np.std(recent_data)`; `s` stands for that
standard deviation. -/
def simplePeaks (data : List ℚ) (fs : ℕ) (s : ℚ) : List ℕ :=
  thresholdGroupPeaks data fs (mean data + (3 / 2) * s)

/-!
## Heart-rate estimation (`calculate_heart_rate`, src/plot.py lines 823-902,
and `_simple_hr_calculation`, lines 904-952)

The status shown in the UI status label; each constructor is one of the
distinct texts the two code paths write. -/

inductive HRStatus where
  | bradycardia
  | tachycardia
  | normalSinusRhythm
  | invalidHRReading
  | calculating
  | insufficientData
  | normalRhythm
  | invalidReading
  deriving DecidableEq

/-- What the estimator writes to the display: the number shown in the HR
field (`none` models the `--` placeholder) and the status label. -/
structure HRResult where
  display : Option ℤ
  status : HRStatus
  deriving DecidableEq

/-- RR intervals retained by the clinical filter: `[rr for rr in
rr_intervals if 0.3 <= rr <= 2.0]` applied to consecutive differences of
the timestamp list. -/
def validList (ts : List ℚ) : List ℚ :=
  (npDiff ts).filter (fun r => decide (3 / 10 ≤ r) && decide (r ≤ 2))

/-- The retained RR intervals of the filtered path, starting from peak
indices into `recent_time`. -/
def validIntervals (rt : List ℚ) (peaks : List ℕ) : List ℚ :=
  validList (peaks.map (fun i => rt.getD i 0))

/-- src/plot.py lines 857-889: from the R peaks of the filtered signal to
the displayed heart rate and status. -/
def filteredPathResult (rt : List ℚ) (peaks : List ℕ) : HRResult :=
  if 1 < peaks.length then
    let valid := validIntervals rt peaks
    if 0 < valid.length then
      let hr := pyInt (60 / mean valid)
      if 30 ≤ hr ∧ hr ≤ 200 then
        if hr < 60 then ⟨some hr, .bradycardia⟩
        else if 100 < hr then ⟨some hr, .tachycardia⟩
        else ⟨some hr, .normalSinusRhythm⟩
      else ⟨none, .invalidHRReading⟩
    else ⟨none, .calculating⟩
  else ⟨none, .insufficientData⟩

/-- src/plot.py lines 904-947 (`_simple_hr_calculation`): fallback
estimation; `avg_interval = np.mean(np.diff(peaks)) / sampling_rate`,
`heart_rate = int(60 / avg_interval)`, then the clinical range check and
classification. -/
def simpleHRCalculation (data : List ℚ) (fs : ℕ) (s : ℚ) : HRResult :=
  let peaks := simplePeaks data fs s
  if 1 < peaks.length then
    let avgInterval := mean (npDiff (peaks.map (fun i => (i : ℚ)))) / (fs : ℚ)
    let hr := pyInt (60 / avgInterval)
    if 30 ≤ hr ∧ hr ≤ 200 then
      if hr < 60 then ⟨some hr, .bradycardia⟩
      else if 100 < hr then ⟨some hr, .tachycardia⟩
      else ⟨some hr, .normalRhythm⟩
    else ⟨none, .invalidReading⟩
  else ⟨none, .calculating⟩

/-- src/plot.py lines 823-902 (`calculate_heart_rate`).  The bandpass
filter (`butter` + `filtfilt`) is external scipy numerics; its outcome is
passed in as `filtered : Except Unit (List ℚ)` — `.ok fd` is the filtered
signal, `.error ()` a raised numerical error, which line 891's
`except` catches before calling `_simple_hr_calculation`.  `fstd` stands
for `np.std(filtered_data)`, `s` for `np.std(recent_data)`.  The outcome
is `none` when the method returns early (fewer than 100 recent samples,
display untouched). -/
def calculateHeartRate (scipyAvail : Bool) (filtered : Except Unit (List ℚ))
    (td ed : List ℚ) (s fstd : ℚ) : Option HRResult :=
  let rd := lastN ed (min 5000 ed.length)
  let rt := lastN td (min 5000 td.length)
  if rd.length < 100 then none
  else if scipyAvail then
    match filtered with
    | .ok fd =>
        some (filteredPathResult rt
          (find_peaks_model fd (mean fd + (1 / 2) * fstd) 200))
    | .error _ => some (simpleHRCalculation rd 500 s)
  else some (simpleHRCalculation rd 500 s)

/-!
## Waveform synthesizer (src/generate.py)

The Gaussian pulses use `np.exp`, which is irrational on rational inputs;
the synthesizer is therefore parametric in the exponential `eexp`, leaving
the control flow, pulse amplitudes, centers and widths exact.
-/

/-- Python/numpy error outcomes relevant to src/generate.py. -/
inductive PyErr where
  | zeroDivisionError
  | indexError
  | valueError
  deriving DecidableEq

/-- numpy `np.linspace(start, stop, num)` (endpoint included); a negative `num`
raises ValueError. -/
def npLinspace (start stop : ℚ) (num : ℤ) : Except PyErr (List ℚ) :=
  if num < 0 then .error .valueError
  else if num = 1 then .ok [start]
  else .ok ((List.range num.toNat).map
    (fun k => start + (stop - start) * (k : ℚ) / ((num : ℚ) - 1)))

/-- numpy `np.arange(start, stop, step)` for `step ≠ 0`: `max 0 ⌈(stop - start) /
step⌉` evenly spaced values from `start`. -/
def npArange (start stop step : ℚ) : List ℚ :=
  (List.range (max 0 ⌈(stop - start) / step⌉).toNat).map
    (fun k => start + (k : ℚ) * step)

/-- One beat's five Gaussian pulses (src/generate.py lines 17-21), as added
to the sample at time `x` for the beat starting at `b`:
`amp * exp(-((x - (b + center)) ^ 2) / (2 * width ^ 2))` with
(amp, center, width) = (0.25, 0.1, 0.01), (-0.1, 0.2, 0.005),
(1.0, 0.22, 0.01), (-0.25, 0.24, 0.005), (0.5, 0.35, 0.02). -/
def beatWaves (eexp : ℚ → ℚ) (b x : ℚ) : ℚ :=
  (25 / 100) * eexp (-((x - (b + 1 / 10)) ^ 2) / (2 * (1 / 100) ^ 2))
    + (-(1 / 10)) * eexp (-((x - (b + 2 / 10)) ^ 2) / (2 * (5 / 1000) ^ 2))
    + 1 * eexp (-((x - (b + 22 / 100)) ^ 2) / (2 * (1 / 100) ^ 2))
    + (-(25 / 100)) * eexp (-((x - (b + 24 / 100)) ^ 2) / (2 * (5 / 1000) ^ 2))
    + (5 / 10) * eexp (-((x - (b + 35 / 100)) ^ 2) / (2 * (2 / 100) ^ 2))

/-- src/generate.py lines 11-25 (`synthetic_ecg(t, hr)`): `beat_duration =
60 / hr` (Python raises ZeroDivisionError for `hr = 0`); beat starts are
`np.arange(0, t[-1], beat_duration)` (`t[-1]` raises IndexError on an
empty array); the output adds the five pulses of every beat into an
initially zero series over `t`. -/
def synthetic_ecg (eexp : ℚ → ℚ) (t : List ℚ) (hr : ℚ) : Except PyErr (List ℚ) :=
  if hr = 0 then .error .zeroDivisionError
  else
    match t.getLast? with
    | none => .error .indexError
    | some tlast =>
        .ok (t.map (fun x =>
          (npArange 0 tlast (60 / hr)).foldl (fun acc b => acc + beatWaves eexp b x) 0))

instance {ε α : Type} [DecidableEq ε] [DecidableEq α] : DecidableEq (Except ε α) :=
  fun x y =>
    match x, y with
    | .ok a, .ok b =>
        if h : a = b then .isTrue (h ▸ rfl)
        else .isFalse (fun hh => h (Except.ok.inj hh))
    | .ok _, .error _ => .isFalse (fun hh => Except.noConfusion hh)
    | .error _, .ok _ => .isFalse (fun hh => Except.noConfusion hh)
    | .error e, .error f =>
        if h : e = f then .isTrue (h ▸ rfl)
        else .isFalse (fun hh => h (Except.error.inj hh))

/-!
## Waveform-component detection (`detect_ecg_components`,
src/plot.py lines 695-790)

The `self.labels[...]['pos']` slots and the interval text are mutable
widget state: detection READS and UPDATES them, it never clears them.  The
state is modelled explicitly and the method becomes a state transformer.
-/

/-- The mutable detection state: the five `labels[...]['pos']` slots
(`none` = undetected so far) and the three interval figures shown in the
interval text box (`none` = `--- ms`). -/
structure DetectState where
  P : Option (ℚ × ℚ)
  Q : Option (ℚ × ℚ)
  R : Option (ℚ × ℚ)
  S : Option (ℚ × ℚ)
  T : Option (ℚ × ℚ)
  pr : Option ℚ
  qrs : Option ℚ
  qt : Option ℚ
  deriving DecidableEq

/-- The state at startup (`setup_plot`, line 600: every `pos` is `None`,
the interval box shows `--- ms` three times). -/
def initState : DetectState := ⟨none, none, none, none, none, none, none, none⟩

/-- Window selection of lines 705-710: the last `2 * 500` samples of both
series when more data than that is available, everything otherwise. -/
def recentOf (td ed : List ℚ) : List ℚ × List ℚ :=
  if 1000 < ed.length then (lastN td 1000, lastN ed 1000) else (td, ed)

/-- Lines 729-736, P wave: maximum of `recent_data[max(0, peak1-100) :
max(0, peak1-25)]`; `none` when the guard `start < end` fails or the
segment is empty (the label is then left untouched). -/
def pSearch (rt rd : List ℚ) (p1 : ℕ) : Option (ℚ × ℚ) :=
  let ps := p1 - 100
  let pe := p1 - 25
  if ps < pe then
    let seg := segOf rd ps pe
    if 0 < seg.length then
      let pidx := ps + argmaxList seg
      some (rt.getD pidx 0, rd.getD pidx 0)
    else none
  else none

/-- Lines 738-745, Q wave: minimum of `recent_data[max(0, peak1-25) :
peak1]`. -/
def qSearch (rt rd : List ℚ) (p1 : ℕ) : Option (ℚ × ℚ) :=
  let qs := p1 - 25
  let qe := p1
  if qs < qe then
    let seg := segOf rd qs qe
    if 0 < seg.length then
      let qidx := qs + argminList seg
      some (rt.getD qidx 0, rd.getD qidx 0)
    else none
  else none

/-- Lines 747-754, S wave: minimum of `recent_data[peak1 : min(n,
peak1+25)]`. -/
def sSearch (rt rd : List ℚ) (p1 : ℕ) : Option (ℚ × ℚ) :=
  let ss := p1
  let se := min rd.length (p1 + 25)
  if ss < se then
    let seg := segOf rd ss se
    if 0 < seg.length then
      let sidx := ss + argminList seg
      some (rt.getD sidx 0, rd.getD sidx 0)
    else none
  else none

/-- Lines 756-763, T wave: maximum of `recent_data[peak1+80 : min(n,
peak1+150)]`, guarded by `t_search_start < t_search_end AND t_search_end <
n` — the second conjunct makes a T window clipped by the end of the data
fail outright instead of being truncated like the S window. -/
def tSearch (rt rd : List ℚ) (p1 : ℕ) : Option (ℚ × ℚ) :=
  let ts := p1 + 80
  let te := min rd.length (p1 + 150)
  if ts < te ∧ te < rd.length then
    let seg := segOf rd ts te
    if 0 < seg.length then
      let tidx := ts + argmaxList seg
      some (rt.getD tidx 0, rd.getD tidx 0)
    else none
  else none

/-- Lines 695-790 (`detect_ecg_components`) as a state transformer over the
label/interval state.  Early return when fewer than 200 samples exist;
R peaks of the 2-second window via `find_peaks(recent_data, height=0.5,
distance=500*0.4)`; with at least 2 peaks, each component label is
overwritten only when its search succeeds, and the three interval figures
are recomputed from the (possibly partly stale) labels; with fewer than 2
peaks nothing at all is written. -/
def detect_ecg_components (st : DetectState) (td ed : List ℚ) : DetectState :=
  if ed.length < 200 then st
  else
    let rt := (recentOf td ed).1
    let rd := (recentOf td ed).2
    let peaks := find_peaks_model rd (1 / 2) 200
    if 2 ≤ peaks.length then
      let p1 := peaks.getD 0 0
      let st1 := { st with R := some (rt.getD p1 0, rd.getD p1 0) }
      let st2 := match pSearch rt rd p1 with
        | some v => { st1 with P := some v }
        | none => st1
      let st3 := match qSearch rt rd p1 with
        | some v => { st2 with Q := some v }
        | none => st2
      let st4 := match sSearch rt rd p1 with
        | some v => { st3 with S := some v }
        | none => st3
      let st5 := match tSearch rt rd p1 with
        | some v => { st4 with T := some v }
        | none => st4
      { st5 with
        pr := match st5.P, st5.Q with
          | some p, some q => some ((q.1 - p.1) * 1000)
          | _, _ => none
        qrs := match st5.Q, st5.S with
          | some q, some s => some ((s.1 - q.1) * 1000)
          | _, _ => none
        qt := match st5.Q, st5.T with
          | some q, some t => some ((t.1 - q.1) * 1000)
          | _, _ => none }
    else st

/-- The three displayed intervals agree with the formulas of lines 765-790
applied to the current labels: PR = (Q.time - P.time) * 1000 when both are
present (`--- ms` otherwise), QRS = (S.time - Q.time) * 1000, QT =
(T.time - Q.time) * 1000. -/
def intervalsConsistent (st : DetectState) : Prop :=
  st.pr = (match st.P, st.Q with
    | some p, some q => some ((q.1 - p.1) * 1000)
    | _, _ => none)
  ∧ st.qrs = (match st.Q, st.S with
    | some q, some s => some ((s.1 - q.1) * 1000)
    | _, _ => none)
  ∧ st.qt = (match st.Q, st.T with
    | some q, some t => some ((t.1 - q.1) * 1000)
    | _, _ => none)

instance (st : DetectState) : Decidable (intervalsConsistent st) := by
  unfold intervalsConsistent; infer_instance

/-!
## Claim-side definitions

Definitions in this block follow the WORDS of the spec / the claims (for
refinement-style comparison with the code embeddings above), not the code.
-/

/-- C1 as stated: from the ordered R-peak timestamps, RR intervals are the
consecutive differences, those in [0.3, 2.0] s are retained, and **if any
remain** `BPM = round(60 / mean(retained))`; `Invalid` outside [30, 200],
else Bradycardia (< 60) / Normal (60-100) / Tachycardia (> 100).  The
claim does not constrain the all-excluded case; this definition returns
the code's "Insufficient Data" there, which the comparison never
exercises. -/
def specHeartRateClaimedC1 (ts : List ℚ) : HRResult :=
  let retained := validList ts
  if retained = [] then ⟨none, .insufficientData⟩
  else
    let bpm := round (60 / mean retained)
    if bpm < 30 ∨ 200 < bpm then ⟨none, .invalidHRReading⟩
    else if bpm < 60 then ⟨some bpm, .bradycardia⟩
    else if bpm ≤ 100 then ⟨some bpm, .normalSinusRhythm⟩
    else ⟨some bpm, .tachycardia⟩

/-- C1 amended: identical pipeline, but the BPM is `int(60 /
mean(retained))` — Python truncation, not rounding — and with no retained
interval the display stays `--` with the "Calculating..." status. -/
def specHeartRateAmendedC1 (ts : List ℚ) : HRResult :=
  let retained := validList ts
  if retained = [] then ⟨none, .calculating⟩
  else
    let bpm := pyInt (60 / mean retained)
    if bpm < 30 ∨ 200 < bpm then ⟨none, .invalidHRReading⟩
    else if bpm < 60 then ⟨some bpm, .bradycardia⟩
    else if bpm ≤ 100 then ⟨some bpm, .normalSinusRhythm⟩
    else ⟨some bpm, .tachycardia⟩

/-- C3 as stated for the fallback path: the same pipeline as
`_simple_hr_calculation`, except that every RR interval outside
[0.3, 2.0] s is excluded from the mean and the all-excluded case is
InsufficientData. -/
def specC3Fallback (data : List ℚ) (fs : ℕ) (s : ℚ) : HRResult :=
  let peaks := simplePeaks data fs s
  if 1 < peaks.length then
    let rrs := (npDiff (peaks.map (fun i => (i : ℚ)))).map (fun d => d / (fs : ℚ))
    let valid := rrs.filter (fun r => decide (3 / 10 ≤ r) && decide (r ≤ 2))
    if valid = [] then ⟨none, .insufficientData⟩
    else
      let hr := pyInt (60 / mean valid)
      if 30 ≤ hr ∧ hr ≤ 200 then
        if hr < 60 then ⟨some hr, .bradycardia⟩
        else if 100 < hr then ⟨some hr, .tachycardia⟩
        else ⟨some hr, .normalRhythm⟩
      else ⟨none, .invalidReading⟩
  else ⟨none, .calculating⟩

/-- C6 as stated for the P wave: the maximum-voltage sample over the CLOSED
index range `peak1 - 100 ≤ i ≤ peak1 - 25` (times `peak1 - 0.20 s` through
`peak1 - 0.05 s` inclusive at 500 Hz), clamped to the available samples. -/
def specPClosedSearch (rt rd : List ℚ) (p1 : ℕ) : Option (ℚ × ℚ) :=
  let cand : List ℕ := (List.range rd.length).filter
    (fun i => decide ((p1 : ℤ) - 100 ≤ (i : ℤ)) && decide ((i : ℤ) ≤ (p1 : ℤ) - 25))
  if cand = [] then none
  else
    let i := cand.getD (argmaxList (cand.map (fun j => rd.getD j 0))) 0
    some (rt.getD i 0, rd.getD i 0)

/-- The claimed P position over the same window and R peaks the code
uses. -/
def specPClosedOfWindow (td ed : List ℚ) : Option (ℚ × ℚ) :=
  let rt := (recentOf td ed).1
  let rd := (recentOf td ed).2
  let peaks := find_peaks_model rd (1 / 2) 200
  if 2 ≤ peaks.length then specPClosedSearch rt rd (peaks.getD 0 0) else none

/-!
## Concrete data used by counterexamples and witnesses
-/

/-- 150 samples at 50 Hz: spikes of 10 mV at indices 5, 35 and 140, zero
elsewhere; its mean is 1/5 and its standard deviation exactly 7/5. -/
def dataC3 : List ℚ := (List.range 150).map
  (fun i => if i = 5 ∨ i = 35 ∨ i = 140 then 10 else 0)

/-- Four samples whose mean is 1/2 and standard deviation exactly 1/2. -/
def dataC4 : List ℚ := [0, 1, 0, 1]

/-- Ten samples at 4 Hz whose mean is 1 and standard deviation exactly 2,
with spikes at indices 0 and 9 (gap 9 samples = 2.25 s). -/
def dataC4w : List ℚ := [5, 0, 0, 0, 0, 0, 0, 0, 0, 5]

/-- A 400-sample window: candidate P deflections of 0.2 mV at index 100 and
0.3 mV at index 125, R peaks of 1 mV at indices 150 and 380. -/
def edC6 : List ℚ := (List.range 400).map
  (fun i => if i = 100 then 1 / 5 else if i = 125 then 3 / 10
    else if i = 150 ∨ i = 380 then 1 else 0)

/-- Timestamps for `edC6`: uniform 500 Hz sampling. -/
def tdC6 : List ℚ := (List.range 400).map (fun i => (i : ℚ) / 500)

/-- A flat 200-sample window: no local maxima, hence no R peaks. -/
def flatC2 : List ℚ := List.replicate 200 0

/-- A stale state left over from an earlier detection cycle: a P label at
time 1 s, voltage 1 mV. -/
def staleC2 : DetectState := ⟨some (1, 1), none, none, none, none, none, none, none⟩

/-- 100 zero samples (enough for `calculate_heart_rate` not to return
early). -/
def zeros100 : List ℚ := List.replicate 100 0

/-- 160 samples of constant voltage, and constant timestamps, used to
exercise the S/T search guards with `peak1 = 20`. -/
def rdC10 : List ℚ := List.replicate 160 1

/-- Timestamps for `rdC10`. -/
def tdC10 : List ℚ := List.replicate 160 2

/-- 40 samples of constant voltage 1 mV, used to exercise the P search with
`peak1 = 30`. -/
def rdC6w : List ℚ := List.replicate 40 1

/-- Timestamps for `rdC6w`. -/
def rtC6w : List ℚ := List.replicate 40 2

/-!
## Shared lemmas
-/

theorem chain_selectFold (test : ℕ → ℕ → Bool) :
    ∀ (cands acc : List ℕ), List.Chain' (fun a b => test a b = true) acc →
      List.Chain' (fun a b => test a b = true) (cands.foldl (selectStep test) acc) := by
  intro cands
  induction cands with
  | nil => intro acc h; exact h
  | cons i rest ih =>
      intro acc h
      refine ih (selectStep test acc i) ?_
      unfold selectStep
      split
      · exact List.chain'_singleton i
      · split
        · refine List.chain'_append.mpr ⟨h, List.chain'_singleton i, ?_⟩
          intro x hx y hy
          rw [List.getLast?_eq_getLast _ (by assumption)] at hx
          simp only [Option.mem_def, Option.some.injEq] at hx
          simp only [List.head?_cons, Option.mem_def, Option.some.injEq] at hy
          subst hx; subst hy
          assumption
        · exact h

theorem chain_selectBySep (test : ℕ → ℕ → Bool) (cands : List ℕ) :
    List.Chain' (fun a b => test a b = true) (selectBySep test cands) :=
  chain_selectFold test cands [] List.chain'_nil

theorem mem_selectFold (test : ℕ → ℕ → Bool) :
    ∀ (cands acc : List ℕ) (x : ℕ),
      x ∈ cands.foldl (selectStep test) acc → x ∈ acc ∨ x ∈ cands := by
  intro cands
  induction cands with
  | nil => intro acc x h; exact Or.inl h
  | cons i rest ih =>
      intro acc x h
      rcases ih (selectStep test acc i) x h with h1 | h1
      · unfold selectStep at h1
        split at h1
        · simp only [List.mem_singleton] at h1
          exact Or.inr (by simp [h1])
        · split at h1
          · rcases List.mem_append.mp h1 with h2 | h2
            · exact Or.inl h2
            · simp only [List.mem_singleton] at h2
              exact Or.inr (by simp [h2])
          · exact Or.inl h1
      · exact Or.inr (List.mem_cons_of_mem i h1)

theorem mem_selectBySep (test : ℕ → ℕ → Bool) (cands : List ℕ) (x : ℕ)
    (h : x ∈ selectBySep test cands) : x ∈ cands := by
  rcases mem_selectFold test cands [] x h with h1 | h1
  · cases h1
  · exact h1

theorem mem_aboveThresholdAux (θ : ℚ) :
    ∀ (l : List ℚ) (k i : ℕ), i ∈ aboveThresholdAux θ l k →
      k ≤ i ∧ θ < l.getD (i - k) 0 := by
  intro l
  induction l with
  | nil => intro k i h; simp [aboveThresholdAux] at h
  | cons x rest ih =>
      intro k i h
      unfold aboveThresholdAux at h
      rcases List.mem_append.mp h with h1 | h1
      · split at h1
        · simp only [List.mem_singleton] at h1
          subst h1
          simpa using (by assumption : θ < x)
        · cases h1
      · rcases ih (k + 1) i h1 with ⟨hk, hv⟩
        refine ⟨by omega, ?_⟩
        have hik : i - k = (i - (k + 1)) + 1 := by omega
        rw [hik]
        simpa using hv

theorem mem_aboveThresholdIdx (data : List ℚ) (θ : ℚ) (i : ℕ)
    (h : i ∈ aboveThresholdIdx data θ) : θ < data.getD i 0 := by
  have := mem_aboveThresholdAux θ data 0 i h
  simpa using this.2

theorem mem_groupConsecutive :
    ∀ (l g : List ℕ), g ∈ groupConsecutive l → ∀ x, x ∈ g → x ∈ l := by
  intro l
  induction l with
  | nil => intro g hg; simp [groupConsecutive] at hg
  | cons i rest ih =>
      intro g hg x hx
      rcases hrec : groupConsecutive rest with _ | ⟨g1, gs⟩
      · rw [groupConsecutive, hrec] at hg
        dsimp only at hg
        simp only [List.mem_singleton] at hg
        subst hg
        simp only [List.mem_singleton] at hx
        simp [hx]
      · rcases g1 with _ | ⟨j, g2⟩
        · rw [groupConsecutive, hrec] at hg
          dsimp only at hg
          rcases List.mem_cons.mp hg with hg1 | hg1
          · subst hg1
            simp only [List.mem_singleton] at hx
            simp [hx]
          · exact List.mem_cons_of_mem i (ih g (hrec ▸ List.mem_cons_of_mem _ hg1) x hx)
        · rw [groupConsecutive, hrec] at hg
          dsimp only at hg
          by_cases hij : i + 1 = j
          · rw [if_pos hij] at hg
            rcases List.mem_cons.mp hg with hg1 | hg1
            · subst hg1
              rcases List.mem_cons.mp hx with hx1 | hx1
              · simp [hx1]
              · exact List.mem_cons_of_mem i
                  (ih (j :: g2) (hrec ▸ List.mem_cons_self _ _) x hx1)
            · exact List.mem_cons_of_mem i (ih g (hrec ▸ List.mem_cons_of_mem _ hg1) x hx)
          · rw [if_neg hij] at hg
            rcases List.mem_cons.mp hg with hg1 | hg1
            · subst hg1
              simp only [List.mem_singleton] at hx
              simp [hx]
            · exact List.mem_cons_of_mem i (ih g (hrec ▸ hg1) x hx)

theorem getD_mem_of_lt {α : Type} (l : List α) (d : α) (k : ℕ) (h : k < l.length) :
    l.getD k d ∈ l := by
  rw [List.getD_eq_getElem?_getD, List.getElem?_eq_getElem h]
  exact List.getElem_mem h

theorem argmaxAux_find : ∀ (rest : List ℚ) (i bi : ℕ) (bv : ℚ),
    argmaxAux rest i bi bv = (bi, bv) ∨
      ∃ k, k < rest.length ∧ argmaxAux rest i bi bv = (i + k, rest.getD k 0) := by
  intro rest
  induction rest with
  | nil => intro i bi bv; exact Or.inl rfl
  | cons x r ih =>
      intro i bi bv
      unfold argmaxAux
      split
      · rcases ih (i + 1) i x with h | ⟨k, hk, h⟩
        · exact Or.inr ⟨0, by simp, by simpa using h⟩
        · refine Or.inr ⟨k + 1, by simpa using hk, ?_⟩
          rw [h, show i + 1 + k = i + (k + 1) by omega]
          simp [List.getD_cons_succ]
      · rcases ih (i + 1) bi bv with h | ⟨k, hk, h⟩
        · exact Or.inl h
        · refine Or.inr ⟨k + 1, by simpa using hk, ?_⟩
          rw [h, show i + 1 + k = i + (k + 1) by omega]
          simp [List.getD_cons_succ]

theorem argmaxAux_le : ∀ (rest : List ℚ) (i bi : ℕ) (bv : ℚ),
    bv ≤ (argmaxAux rest i bi bv).2 ∧ ∀ x ∈ rest, x ≤ (argmaxAux rest i bi bv).2 := by
  intro rest
  induction rest with
  | nil => intro i bi bv; exact ⟨le_refl _, by simp⟩
  | cons x r ih =>
      intro i bi bv
      unfold argmaxAux
      split
      · rcases ih (i + 1) i x with ⟨h1, h2⟩
        refine ⟨le_trans (le_of_lt (by assumption)) h1, ?_⟩
        intro y hy
        rcases List.mem_cons.mp hy with hy1 | hy1
        · subst hy1; exact h1
        · exact h2 y hy1
      · rcases ih (i + 1) bi bv with ⟨h1, h2⟩
        refine ⟨h1, ?_⟩
        intro y hy
        rcases List.mem_cons.mp hy with hy1 | hy1
        · subst hy1
          exact le_trans (not_lt.mp (by assumption)) h1
        · exact h2 y hy1

theorem argmaxList_lt_length (l : List ℚ) (h : l ≠ []) : argmaxList l < l.length := by
  rcases l with _ | ⟨x, r⟩
  · exact absurd rfl h
  · have he : argmaxList (x :: r) = (argmaxAux r 1 0 x).1 := rfl
    rw [he]
    rcases argmaxAux_find r 1 0 x with h1 | ⟨k, hk, h1⟩
    · rw [h1]; simp
    · rw [h1]; simp only [List.length_cons]; omega

theorem argmax_getD_eq (l : List ℚ) (h : l ≠ []) :
    l.getD (argmaxList l) 0 = (argmaxP l).2 := by
  rcases l with _ | ⟨x, r⟩
  · exact absurd rfl h
  · have he1 : argmaxList (x :: r) = (argmaxAux r 1 0 x).1 := rfl
    have he2 : (argmaxP (x :: r)).2 = (argmaxAux r 1 0 x).2 := rfl
    rw [he1, he2]
    rcases argmaxAux_find r 1 0 x with h1 | ⟨k, hk, h1⟩
    · rw [h1]; rfl
    · rw [h1]
      simp [show 1 + k = k + 1 by omega, List.getD_cons_succ]

theorem argmax_is_max (l : List ℚ) : ∀ x ∈ l, x ≤ (argmaxP l).2 := by
  rcases l with _ | ⟨x, r⟩
  · simp
  · intro y hy
    unfold argmaxP
    rcases List.mem_cons.mp hy with hy1 | hy1
    · subst hy1; exact (argmaxAux_le r 1 0 y).1
    · exact (argmaxAux_le r 1 0 x).2 y hy1

theorem argmax_spec (l : List ℚ) (h : l ≠ []) :
    argmaxList l < l.length ∧
      ∀ k, k < l.length → l.getD k 0 ≤ l.getD (argmaxList l) 0 := by
  refine ⟨argmaxList_lt_length l h, ?_⟩
  intro k hk
  rw [argmax_getD_eq l h]
  exact argmax_is_max l _ (getD_mem_of_lt l 0 k hk)

theorem argminAux_find : ∀ (rest : List ℚ) (i bi : ℕ) (bv : ℚ),
    argminAux rest i bi bv = (bi, bv) ∨
      ∃ k, k < rest.length ∧ argminAux rest i bi bv = (i + k, rest.getD k 0) := by
  intro rest
  induction rest with
  | nil => intro i bi bv; exact Or.inl rfl
  | cons x r ih =>
      intro i bi bv
      unfold argminAux
      split
      · rcases ih (i + 1) i x with h | ⟨k, hk, h⟩
        · exact Or.inr ⟨0, by simp, by simpa using h⟩
        · refine Or.inr ⟨k + 1, by simpa using hk, ?_⟩
          rw [h, show i + 1 + k = i + (k + 1) by omega]
          simp [List.getD_cons_succ]
      · rcases ih (i + 1) bi bv with h | ⟨k, hk, h⟩
        · exact Or.inl h
        · refine Or.inr ⟨k + 1, by simpa using hk, ?_⟩
          rw [h, show i + 1 + k = i + (k + 1) by omega]
          simp [List.getD_cons_succ]

theorem argminAux_le : ∀ (rest : List ℚ) (i bi : ℕ) (bv : ℚ),
    (argminAux rest i bi bv).2 ≤ bv ∧ ∀ x ∈ rest, (argminAux rest i bi bv).2 ≤ x := by
  intro rest
  induction rest with
  | nil => intro i bi bv; exact ⟨le_refl _, by simp⟩
  | cons x r ih =>
      intro i bi bv
      unfold argminAux
      split
      · rcases ih (i + 1) i x with ⟨h1, h2⟩
        refine ⟨le_trans h1 (le_of_lt (by assumption)), ?_⟩
        intro y hy
        rcases List.mem_cons.mp hy with hy1 | hy1
        · subst hy1; exact h1
        · exact h2 y hy1
      · rcases ih (i + 1) bi bv with ⟨h1, h2⟩
        refine ⟨h1, ?_⟩
        intro y hy
        rcases List.mem_cons.mp hy with hy1 | hy1
        · subst hy1
          exact le_trans h1 (not_lt.mp (by assumption))
        · exact h2 y hy1

theorem argminList_lt_length (l : List ℚ) (h : l ≠ []) : argminList l < l.length := by
  rcases l with _ | ⟨x, r⟩
  · exact absurd rfl h
  · have he : argminList (x :: r) = (argminAux r 1 0 x).1 := rfl
    rw [he]
    rcases argminAux_find r 1 0 x with h1 | ⟨k, hk, h1⟩
    · rw [h1]; simp
    · rw [h1]; simp only [List.length_cons]; omega

theorem argmin_getD_eq (l : List ℚ) (h : l ≠ []) :
    l.getD (argminList l) 0 = (argminP l).2 := by
  rcases l with _ | ⟨x, r⟩
  · exact absurd rfl h
  · have he1 : argminList (x :: r) = (argminAux r 1 0 x).1 := rfl
    have he2 : (argminP (x :: r)).2 = (argminAux r 1 0 x).2 := rfl
    rw [he1, he2]
    rcases argminAux_find r 1 0 x with h1 | ⟨k, hk, h1⟩
    · rw [h1]; rfl
    · rw [h1]
      simp [show 1 + k = k + 1 by omega, List.getD_cons_succ]

theorem argmin_is_min (l : List ℚ) : ∀ x ∈ l, (argminP l).2 ≤ x := by
  rcases l with _ | ⟨x, r⟩
  · simp
  · intro y hy
    unfold argminP
    rcases List.mem_cons.mp hy with hy1 | hy1
    · subst hy1; exact (argminAux_le r 1 0 y).1
    · exact (argminAux_le r 1 0 x).2 y hy1

theorem argmin_spec (l : List ℚ) (h : l ≠ []) :
    argminList l < l.length ∧
      ∀ k, k < l.length → l.getD (argminList l) 0 ≤ l.getD k 0 := by
  refine ⟨argminList_lt_length l h, ?_⟩
  intro k hk
  rw [argmin_getD_eq l h]
  exact argmin_is_min l _ (getD_mem_of_lt l 0 k hk)

theorem groupPeak_mem (data : List ℚ) (g : List ℕ) (h : g ≠ []) : groupPeak data g ∈ g := by
  unfold groupPeak
  have hlen : (g.map (fun i => data.getD i 0)).length = g.length := List.length_map _ _
  have hne : g.map (fun i => data.getD i 0) ≠ [] := by
    intro hc
    exact h (List.map_eq_nil_iff.mp hc)
  have hlt : argmaxList (g.map (fun i => data.getD i 0)) < g.length := by
    rw [← hlen]
    exact argmaxList_lt_length _ hne
  exact getD_mem_of_lt g 0 _ hlt

theorem mem_thresholdGroupPeaks (data : List ℚ) (fs : ℕ) (θ : ℚ) (i : ℕ)
    (h : i ∈ thresholdGroupPeaks data fs θ) : θ < data.getD i 0 := by
  unfold thresholdGroupPeaks acceptPeaks at h
  have h1 := mem_selectBySep _ _ _ h
  rcases List.mem_map.mp h1 with ⟨g, hg, hpk⟩
  have hg1 := List.mem_filter.mp hg
  have hgne : g ≠ [] := by
    intro hc
    subst hc
    simpa using hg1.2
  have hmem : i ∈ g := by
    rw [← hpk]
    exact groupPeak_mem data g hgne
  have : i ∈ aboveThresholdIdx data θ :=
    mem_groupConsecutive _ g hg1.1 i hmem
  exact mem_aboveThresholdIdx data θ i this

theorem mem_find_peaks_height (d : List ℚ) (height dist : ℚ) (i : ℕ)
    (h : i ∈ find_peaks_model d height dist) : height ≤ d.getD i 0 := by
  unfold find_peaks_model at h
  have h1 := mem_selectBySep _ _ _ h
  have h2 := List.mem_filter.mp h1
  simpa using h2.2

theorem segOf_length (l : List ℚ) (a b : ℕ) :
    (segOf l a b).length = min (b - a) (l.length - a) := by
  unfold segOf
  rw [List.length_take, List.length_drop]

theorem segOf_getD (l : List ℚ) (a b k : ℕ) (h : k < (segOf l a b).length) :
    (segOf l a b).getD k 0 = l.getD (a + k) 0 := by
  rw [segOf_length] at h
  unfold segOf
  rw [List.getD_eq_getElem?_getD, List.getD_eq_getElem?_getD]
  rw [List.getElem?_take, List.getElem?_drop]
  rw [if_pos (by omega)]

theorem segMax_spec (rd : List ℚ) (a b : ℕ) (hab : a < b) (han : a < rd.length) :
    0 < (segOf rd a b).length ∧
      a + argmaxList (segOf rd a b) < b ∧
      a + argmaxList (segOf rd a b) < rd.length ∧
      ∀ j, a ≤ j → j < b → j < rd.length →
        rd.getD j 0 ≤ rd.getD (a + argmaxList (segOf rd a b)) 0 := by
  have hlen : (segOf rd a b).length = min (b - a) (rd.length - a) := segOf_length rd a b
  have hpos : 0 < (segOf rd a b).length := by rw [hlen]; omega
  have hne : segOf rd a b ≠ [] := List.length_pos.mp hpos
  rcases argmax_spec (segOf rd a b) hne with ⟨hlt, hmax⟩
  refine ⟨hpos, by omega, by omega, ?_⟩
  intro j hja hjb hjn
  have hk : j - a < (segOf rd a b).length := by rw [hlen]; omega
  have h1 : (segOf rd a b).getD (j - a) 0 = rd.getD j 0 := by
    rw [segOf_getD rd a b (j - a) hk, show a + (j - a) = j by omega]
  have h2 : (segOf rd a b).getD (argmaxList (segOf rd a b)) 0
      = rd.getD (a + argmaxList (segOf rd a b)) 0 :=
    segOf_getD rd a b _ hlt
  rw [← h1, ← h2]
  exact hmax _ hk

theorem segMin_spec (rd : List ℚ) (a b : ℕ) (hab : a < b) (han : a < rd.length) :
    0 < (segOf rd a b).length ∧
      a + argminList (segOf rd a b) < b ∧
      a + argminList (segOf rd a b) < rd.length ∧
      ∀ j, a ≤ j → j < b → j < rd.length →
        rd.getD (a + argminList (segOf rd a b)) 0 ≤ rd.getD j 0 := by
  have hlen : (segOf rd a b).length = min (b - a) (rd.length - a) := segOf_length rd a b
  have hpos : 0 < (segOf rd a b).length := by rw [hlen]; omega
  have hne : segOf rd a b ≠ [] := List.length_pos.mp hpos
  rcases argmin_spec (segOf rd a b) hne with ⟨hlt, hmin⟩
  refine ⟨hpos, by omega, by omega, ?_⟩
  intro j hja hjb hjn
  have hk : j - a < (segOf rd a b).length := by rw [hlen]; omega
  have h1 : (segOf rd a b).getD (j - a) 0 = rd.getD j 0 := by
    rw [segOf_getD rd a b (j - a) hk, show a + (j - a) = j by omega]
  have h2 : (segOf rd a b).getD (argminList (segOf rd a b)) 0
      = rd.getD (a + argminList (segOf rd a b)) 0 :=
    segOf_getD rd a b _ hlt
  rw [← h1, ← h2]
  exact hmin _ hk

theorem pSearch_isSome_iff (rt rd : List ℚ) (p1 : ℕ) :
    (pSearch rt rd p1).isSome ↔ 25 < p1 ∧ p1 - 100 < rd.length := by
  unfold pSearch
  by_cases hg : p1 - 100 < p1 - 25
  · rw [if_pos hg]
    dsimp only
    have hseg := segOf_length rd (p1 - 100) (p1 - 25)
    by_cases hl : 0 < (segOf rd (p1 - 100) (p1 - 25)).length
    · rw [if_pos hl]
      simp only [Option.isSome_some, true_iff]
      omega
    · rw [if_neg hl]
      simp only [Option.isSome_none, Bool.false_eq_true, false_iff]
      omega
  · rw [if_neg hg]
    simp only [Option.isSome_none, Bool.false_eq_true, false_iff]
    omega

theorem qSearch_isSome_iff (rt rd : List ℚ) (p1 : ℕ) :
    (qSearch rt rd p1).isSome ↔ 0 < p1 ∧ p1 - 25 < rd.length := by
  unfold qSearch
  by_cases hg : p1 - 25 < p1
  · rw [if_pos hg]
    dsimp only
    have hseg := segOf_length rd (p1 - 25) p1
    by_cases hl : 0 < (segOf rd (p1 - 25) p1).length
    · rw [if_pos hl]
      simp only [Option.isSome_some, true_iff]
      omega
    · rw [if_neg hl]
      simp only [Option.isSome_none, Bool.false_eq_true, false_iff]
      omega
  · rw [if_neg hg]
    simp only [Option.isSome_none, Bool.false_eq_true, false_iff]
    omega

theorem sSearch_isSome_iff (rt rd : List ℚ) (p1 : ℕ) :
    (sSearch rt rd p1).isSome ↔ p1 < rd.length := by
  unfold sSearch
  by_cases hg : p1 < min rd.length (p1 + 25)
  · rw [if_pos hg]
    dsimp only
    have hseg := segOf_length rd p1 (min rd.length (p1 + 25))
    by_cases hl : 0 < (segOf rd p1 (min rd.length (p1 + 25))).length
    · rw [if_pos hl]
      simp only [Option.isSome_some, true_iff]
      omega
    · rw [if_neg hl]
      simp only [Option.isSome_none, Bool.false_eq_true, false_iff]
      omega
  · rw [if_neg hg]
    simp only [Option.isSome_none, Bool.false_eq_true, false_iff]
    omega

theorem tSearch_isSome_iff (rt rd : List ℚ) (p1 : ℕ) :
    (tSearch rt rd p1).isSome ↔ p1 + 150 < rd.length := by
  unfold tSearch
  by_cases hg : p1 + 80 < min rd.length (p1 + 150) ∧ min rd.length (p1 + 150) < rd.length
  · rw [if_pos hg]
    dsimp only
    have hseg := segOf_length rd (p1 + 80) (min rd.length (p1 + 150))
    by_cases hl : 0 < (segOf rd (p1 + 80) (min rd.length (p1 + 150))).length
    · rw [if_pos hl]
      simp only [Option.isSome_some, true_iff]
      omega
    · rw [if_neg hl]
      simp only [Option.isSome_none, Bool.false_eq_true, false_iff]
      omega
  · rw [if_neg hg]
    simp only [Option.isSome_none, Bool.false_eq_true, false_iff]
    omega

theorem pSearch_some_char (rt rd : List ℚ) (p1 : ℕ) (t v : ℚ)
    (h : pSearch rt rd p1 = some (t, v)) :
    ∃ i, p1 - 100 ≤ i ∧ i < p1 - 25 ∧ i < rd.length ∧
      t = rt.getD i 0 ∧ v = rd.getD i 0 ∧
      ∀ j, p1 - 100 ≤ j → j < p1 - 25 → j < rd.length → rd.getD j 0 ≤ v := by
  unfold pSearch at h
  by_cases hg : p1 - 100 < p1 - 25
  · rw [if_pos hg] at h
    dsimp only at h
    have hseg := segOf_length rd (p1 - 100) (p1 - 25)
    by_cases hl : 0 < (segOf rd (p1 - 100) (p1 - 25)).length
    · rw [if_pos hl] at h
      have han : p1 - 100 < rd.length := by omega
      rcases segMax_spec rd (p1 - 100) (p1 - 25) hg han with ⟨_, hb, hn, hmax⟩
      have hp := Option.some.inj h
      cases hp
      exact ⟨p1 - 100 + argmaxList (segOf rd (p1 - 100) (p1 - 25)),
        by omega, hb, hn, rfl, rfl, fun j h1 h2 h3 => hmax j h1 h2 h3⟩
    · rw [if_neg hl] at h
      cases h
  · rw [if_neg hg] at h
    cases h

theorem qSearch_some_char (rt rd : List ℚ) (p1 : ℕ) (t v : ℚ)
    (h : qSearch rt rd p1 = some (t, v)) :
    ∃ i, p1 - 25 ≤ i ∧ i < p1 ∧ i < rd.length ∧
      t = rt.getD i 0 ∧ v = rd.getD i 0 ∧
      ∀ j, p1 - 25 ≤ j → j < p1 → j < rd.length → v ≤ rd.getD j 0 := by
  unfold qSearch at h
  by_cases hg : p1 - 25 < p1
  · rw [if_pos hg] at h
    dsimp only at h
    have hseg := segOf_length rd (p1 - 25) p1
    by_cases hl : 0 < (segOf rd (p1 - 25) p1).length
    · rw [if_pos hl] at h
      have han : p1 - 25 < rd.length := by omega
      rcases segMin_spec rd (p1 - 25) p1 hg han with ⟨_, hb, hn, hmin⟩
      have hp := Option.some.inj h
      cases hp
      exact ⟨p1 - 25 + argminList (segOf rd (p1 - 25) p1),
        by omega, hb, hn, rfl, rfl, fun j h1 h2 h3 => hmin j h1 h2 h3⟩
    · rw [if_neg hl] at h
      cases h
  · rw [if_neg hg] at h
    cases h

theorem sSearch_some_char (rt rd : List ℚ) (p1 : ℕ) (t v : ℚ)
    (h : sSearch rt rd p1 = some (t, v)) :
    ∃ i, p1 ≤ i ∧ i < p1 + 25 ∧ i < rd.length ∧
      t = rt.getD i 0 ∧ v = rd.getD i 0 ∧
      ∀ j, p1 ≤ j → j < p1 + 25 → j < rd.length → v ≤ rd.getD j 0 := by
  unfold sSearch at h
  by_cases hg : p1 < min rd.length (p1 + 25)
  · rw [if_pos hg] at h
    dsimp only at h
    have hseg := segOf_length rd p1 (min rd.length (p1 + 25))
    by_cases hl : 0 < (segOf rd p1 (min rd.length (p1 + 25))).length
    · rw [if_pos hl] at h
      have han : p1 < rd.length := by omega
      rcases segMin_spec rd p1 (min rd.length (p1 + 25)) hg han with ⟨_, hb, hn, hmin⟩
      have hp := Option.some.inj h
      cases hp
      exact ⟨p1 + argminList (segOf rd p1 (min rd.length (p1 + 25))),
        by omega, by omega, hn, rfl, rfl,
        fun j h1 h2 h3 => hmin j h1 (by omega) h3⟩
    · rw [if_neg hl] at h
      cases h
  · rw [if_neg hg] at h
    cases h

theorem tSearch_some_char (rt rd : List ℚ) (p1 : ℕ) (t v : ℚ)
    (h : tSearch rt rd p1 = some (t, v)) :
    ∃ i, p1 + 80 ≤ i ∧ i < p1 + 150 ∧ i < rd.length ∧
      t = rt.getD i 0 ∧ v = rd.getD i 0 ∧
      ∀ j, p1 + 80 ≤ j → j < p1 + 150 → j < rd.length → rd.getD j 0 ≤ v := by
  unfold tSearch at h
  by_cases hg : p1 + 80 < min rd.length (p1 + 150) ∧ min rd.length (p1 + 150) < rd.length
  · rw [if_pos hg] at h
    dsimp only at h
    have hseg := segOf_length rd (p1 + 80) (min rd.length (p1 + 150))
    by_cases hl : 0 < (segOf rd (p1 + 80) (min rd.length (p1 + 150))).length
    · rw [if_pos hl] at h
      have han : p1 + 80 < rd.length := by omega
      rcases segMax_spec rd (p1 + 80) (min rd.length (p1 + 150)) hg.1 han with ⟨_, hb, hn, hmax⟩
      have hp := Option.some.inj h
      cases hp
      exact ⟨p1 + 80 + argmaxList (segOf rd (p1 + 80) (min rd.length (p1 + 150))),
        by omega, by omega, hn, rfl, rfl,
        fun j h1 h2 h3 => hmax j h1 (by omega) h3⟩
    · rw [if_neg hl] at h
      cases h
  · rw [if_neg hg] at h
    cases h

/-!
## Claims
-/

/-- C1 counterexample: with R-peak timestamps 0 s, 0.7 s, 1.4 s, both RR
intervals (0.7 s) are retained and 60 / mean = 600/7 ≈ 85.71; the code
displays `int(600/7) = 85` but the claim's `round(600/7) = 86`, so the
claim's description of the heart-rate estimate is false at this input. -/
theorem C1_round_cex :
    filteredPathResult [0, 7/10, 14/10] [0, 1, 2] = ⟨some 85, .normalSinusRhythm⟩ ∧
    specHeartRateClaimedC1 [0, 7/10, 14/10] = ⟨some 86, .normalSinusRhythm⟩ ∧
    filteredPathResult [0, 7/10, 14/10] [0, 1, 2]
      ≠ specHeartRateClaimedC1 [0, 7/10, 14/10] := by
  with_unfolding_all decide

/-- C1 amended: the heart-rate estimate truncates (`int(60 / mean)`, toward
zero) instead of rounding; with that change the whole pipeline — RR
intervals as consecutive differences, retention of [0.3, 2.0] s, Invalid
outside [30, 200], Bradycardia < 60 / Normal 60-100 / Tachycardia > 100 —
is exactly the code's, whenever at least two peaks are present. -/
theorem C1_truncated_hr (rt : List ℚ) (peaks : List ℕ) (h : 1 < peaks.length) :
    filteredPathResult rt peaks
      = specHeartRateAmendedC1 (peaks.map (fun i => rt.getD i 0)) := by
  unfold filteredPathResult specHeartRateAmendedC1 validIntervals
  rw [if_pos h]
  dsimp only
  by_cases hr0 : validList (peaks.map fun i => rt.getD i 0) = []
  · rw [hr0, if_pos rfl]
    simp
  · have hlen : 0 < (validList (peaks.map fun i => rt.getD i 0)).length :=
      List.length_pos.mpr hr0
    rw [if_pos hlen, if_neg hr0]
    split_ifs <;> first | rfl | (exfalso; omega)

/-- C1 witness: the amended theorem applied at the counterexample input. -/
theorem C1_truncated_hr_witness :
    filteredPathResult [0, 7/10, 14/10] [0, 1, 2]
      = specHeartRateAmendedC1 ([0, 1, 2].map
          (fun i => ([0, 7/10, 14/10] : List ℚ).getD i 0)) :=
  C1_truncated_hr [0, 7/10, 14/10] [0, 1, 2] (by decide)

/-- C2 counterexample: a flat 200-sample window yields no R peaks (fewer
than 2), yet the detection cycle leaves a stale P position from a prior
window in place instead of discarding it — the result does NOT have every
component undetected. -/
theorem C2_stale_state_cex :
    detect_ecg_components staleC2 flatC2 flatC2 = staleC2 ∧
    staleC2.P = some (1, 1) ∧
    (find_peaks_model (recentOf flatC2 flatC2).2 (1/2) 200).length < 2 := by
  with_unfolding_all decide

/-- C2 amended: positions are NOT recomputed from scratch each cycle; when
the window has fewer than 200 samples, or fewer than 2 accepted R peaks,
the detection cycle returns the prior state unchanged — stale positions
persist and no error is raised. -/
theorem C2_state_retained (st : DetectState) (td ed : List ℚ) :
    (ed.length < 200 → detect_ecg_components st td ed = st) ∧
    ((find_peaks_model (recentOf td ed).2 (1/2) 200).length < 2 →
      detect_ecg_components st td ed = st) := by
  constructor
  · intro h
    unfold detect_ecg_components
    rw [if_pos h]
  · intro h
    unfold detect_ecg_components
    split
    · rfl
    · dsimp only
      rw [if_neg (by omega)]

/-- C2 witness: the amended theorem applied to the stale state and the flat
window. -/
theorem C2_state_retained_witness :
    detect_ecg_components staleC2 flatC2 flatC2 = staleC2 :=
  (C2_state_retained staleC2 flatC2 flatC2).2 (by with_unfolding_all decide)

/-- C3 counterexample: 150 samples at 50 Hz with spikes at indices 5, 35,
140 give fallback peaks [5, 35, 140] and inter-peak intervals 0.6 s and
2.1 s.  The claim requires the 2.1 s interval (outside [0.3, 2.0] s) to be
excluded, giving BPM 100 (Normal); the fallback path performs no exclusion
and displays int(60 / 1.35) = 44 (Bradycardia). -/
theorem C3_fallback_no_filter_cex :
    IsStd dataC3 (7/5) ∧
    simpleHRCalculation dataC3 50 (7/5) = ⟨some 44, .bradycardia⟩ ∧
    specC3Fallback dataC3 50 (7/5) = ⟨some 100, .normalRhythm⟩ ∧
    simpleHRCalculation dataC3 50 (7/5) ≠ specC3Fallback dataC3 50 (7/5) := by
  with_unfolding_all decide

/-- C3 amended: only the FILTERED path excludes RR intervals outside
[0.3, 2.0] s (first conjunct), and when all intervals are excluded it
shows no numeric BPM with the "Calculating..." status, not "Insufficient
Data" (second conjunct); the fallback path applies no RR-interval
exclusion at all — at `dataC3` its mean includes the 2.1 s interval and
the displayed BPM is computed from that mean (third conjunct). -/
theorem C3_rr_exclusion :
    (∀ (rt : List ℚ) (peaks : List ℕ) (r : ℚ),
        r ∈ validIntervals rt peaks → 3/10 ≤ r ∧ r ≤ 2) ∧
    (∀ (rt : List ℚ) (peaks : List ℕ), 1 < peaks.length →
        validIntervals rt peaks = [] →
        filteredPathResult rt peaks = ⟨none, .calculating⟩) ∧
    ((npDiff ((simplePeaks dataC3 50 (7/5)).map (fun i => (i : ℚ)))).map
        (fun d => d / (50 : ℚ)) = [3/5, 21/10] ∧
      ¬((21/10 : ℚ) ≤ 2) ∧
      (simpleHRCalculation dataC3 50 (7/5)).display
        = some (pyInt (60 / mean [(3/5 : ℚ), 21/10]))) := by
  refine ⟨?_, ?_, by with_unfolding_all decide⟩
  · intro rt peaks r hr
    unfold validIntervals validList at hr
    have h2 := (List.mem_filter.mp hr).2
    simp only [Bool.and_eq_true, decide_eq_true_eq] at h2
    exact h2
  · intro rt peaks hp hv
    unfold filteredPathResult
    rw [if_pos hp]
    dsimp only
    rw [hv]
    simp

/-- C3 witness: the exclusion property of the filtered path applied to a
retained interval of 0.5 s. -/
theorem C3_rr_exclusion_witness : (3/10 : ℚ) ≤ 1/2 ∧ (1/2 : ℚ) ≤ 2 :=
  C3_rr_exclusion.1 [0, 1/2] [0, 1] (1/2) (by with_unfolding_all decide)

/-- C4 counterexample: on [0, 1, 0, 1] (mean 1/2, std 1/2) the fallback's
actual threshold is mean + 1.5*std = 5/4, so NO sample crosses it and no
peak is accepted — while the same threshold-crossing pipeline run with
either claimed threshold (the fixed 0.5 or the adaptive mean + 0.5*std =
3/4) accepts the peak at index 1.  The fallback therefore uses neither of
the two claimed thresholds. -/
theorem C4_threshold_cex :
    IsStd dataC4 (1/2) ∧
    simplePeaks dataC4 500 (1/2) = [] ∧
    thresholdGroupPeaks dataC4 500 (1/2) = [1] ∧
    thresholdGroupPeaks dataC4 500 (mean dataC4 + (1/2) * (1/2)) = [1] := by
  with_unfolding_all decide

/-- C4 amended: each accepted peak does exceed its strategy's actual
threshold, but the fallback's is `mean + 1.5 * std` (strictly exceeded),
not 0.5 or `mean + 0.5 * std`; the scipy path accepts peaks whose height
is at least its `height` argument (which `calculate_heart_rate` sets to
`mean + 0.5 * std` of the filtered signal, and `detect_ecg_components` to
0.5). -/
theorem C4_actual_thresholds :
    (∀ (data : List ℚ) (fs : ℕ) (s : ℚ) (i : ℕ),
        i ∈ simplePeaks data fs s → mean data + (3/2) * s < data.getD i 0) ∧
    (∀ (fd : List ℚ) (θ dist : ℚ) (i : ℕ),
        i ∈ find_peaks_model fd θ dist → θ ≤ fd.getD i 0) :=
  ⟨fun data fs s i h => mem_thresholdGroupPeaks data fs (mean data + (3/2) * s) i h,
   fun fd θ dist i h => mem_find_peaks_height fd θ dist i h⟩

/-- C4 witness: on `dataC4w` (mean 1, std 2) the fallback accepts the peak
at index 0, and its voltage 5 indeed exceeds mean + 1.5*std = 4. -/
theorem C4_actual_thresholds_witness :
    mean dataC4w + (3/2) * 2 < dataC4w.getD 0 0 :=
  C4_actual_thresholds.1 dataC4w 4 2 0 (by with_unfolding_all decide)

/-- C5 counterexample: `synthetic_ecg` with heartRate = -75 returns a
NON-empty all-zero sequence with no error at all (the claim says
`heartRate <= 0` fails with InvalidParameter), and duration = 0 gives
`num = int(500 * 0) = 0`, an EMPTY time array — on which `synthetic_ecg`
raises IndexError at `t[-1]` (the claim says duration <= 0 yields an
empty sequence with no error). -/
theorem C5_no_validation_cex :
    synthetic_ecg (fun q => q) [0, 1/2, 1] (-75) = .ok [0, 0, 0] ∧
    npLinspace 0 0 (pyInt (500 * 0)) = .ok [] ∧
    synthetic_ecg (fun q => q) [] 75 = .error .indexError := by
  with_unfolding_all decide

/-- C5 amended: the synthesizer performs no parameter validation.
`heartRate < 0` silently yields an all-zero waveform over `t` (the beat
grid `np.arange(0, t[-1], 60/hr)` is empty for a negative step whenever
`t[-1] ≥ 0`); `heartRate = 0` raises ZeroDivisionError at `60 / hr`;
an empty `t` (duration 0) raises IndexError at `t[-1]`; and a duration
with `int(500 * duration) < 0` makes `np.linspace` itself raise
ValueError. -/
theorem C5_edge_behavior :
    (∀ (eexp : ℚ → ℚ) (t : List ℚ) (hr tlast : ℚ), hr < 0 →
        t.getLast? = some tlast → 0 ≤ tlast →
        synthetic_ecg eexp t hr = .ok (t.map (fun _ => 0))) ∧
    (∀ (eexp : ℚ → ℚ) (t : List ℚ),
        synthetic_ecg eexp t 0 = .error .zeroDivisionError) ∧
    (∀ (eexp : ℚ → ℚ) (hr : ℚ), hr ≠ 0 →
        synthetic_ecg eexp [] hr = .error .indexError) ∧
    (∀ d : ℚ, pyInt (500 * d) < 0 →
        npLinspace 0 d (pyInt (500 * d)) = .error .valueError) := by
  refine ⟨?_, ?_, ?_, ?_⟩
  · intro eexp t hr tlast hr0 hlast h0
    unfold synthetic_ecg
    rw [if_neg (ne_of_lt hr0), hlast]
    dsimp only
    have hstep : 60 / hr < 0 := div_neg_of_pos_of_neg (by norm_num) hr0
    have hq : (tlast - 0) / (60 / hr) ≤ 0 := by
      rw [sub_zero]
      exact div_nonpos_iff.mpr (Or.inl ⟨h0, le_of_lt hstep⟩)
    have hceil : ⌈(tlast - 0) / (60 / hr)⌉ ≤ 0 :=
      Int.ceil_le.mpr (by exact_mod_cast hq)
    have harr : npArange 0 tlast (60 / hr) = [] := by
      unfold npArange
      rw [show max 0 ⌈(tlast - 0) / (60 / hr)⌉ = 0 by omega]
      rfl
    simp only [harr]
    rfl
  · intro eexp t
    unfold synthetic_ecg
    rw [if_pos rfl]
  · intro eexp hr h
    unfold synthetic_ecg
    rw [if_neg h]
    rfl
  · intro d h
    unfold npLinspace
    rw [if_pos h]

/-- C5 witness: the amended theorem's negative-heart-rate clause at a
concrete input. -/
theorem C5_edge_behavior_witness :
    synthetic_ecg (fun q => q + 1) [0, 1] (-60) = .ok ([0, 1].map (fun _ => 0)) :=
  C5_edge_behavior.1 (fun q => q + 1) [0, 1] (-60) 1 (by norm_num)
    (by with_unfolding_all decide) (by norm_num)

/-- C6 counterexample: on the 400-sample window `edC6` the detector places
P at index 100 (time 0.2 s, voltage 0.2 mV) because the Python slice
`[peak1-100 : peak1-25]` EXCLUDES its right endpoint, while the claim's
closed interval `[peak1 - 0.20 s, peak1 - 0.05 s]` contains the larger
0.3 mV sample at index 125 (time 0.25 s) and would place P there. -/
theorem C6_closed_interval_cex :
    (detect_ecg_components initState tdC6 edC6).P = some (1/5, 1/5) ∧
    specPClosedOfWindow tdC6 edC6 = some (1/4, 3/10) ∧
    (detect_ecg_components initState tdC6 edC6).P ≠ specPClosedOfWindow tdC6 edC6 := by
  with_unfolding_all decide

/-- C6 amended: the four component searches use HALF-OPEN index windows
(right endpoint excluded, exactly the Python slices): P is a maximum over
`[peak1-100, peak1-25)`, Q a minimum over `[peak1-25, peak1)`, S a minimum
over `[peak1, peak1+25)` clamped to the data, T a maximum over
`[peak1+80, peak1+150)` only when that window lies strictly inside the
data; each search yields `none` (leaving the label untouched, never an
error) exactly when its window is empty, inverted or out of range. -/
theorem C6_half_open_searches (rt rd : List ℚ) (p1 : ℕ) :
    ((pSearch rt rd p1).isSome ↔ 25 < p1 ∧ p1 - 100 < rd.length) ∧
    (∀ t v, pSearch rt rd p1 = some (t, v) → ∃ i, p1 - 100 ≤ i ∧ i < p1 - 25 ∧
        i < rd.length ∧ t = rt.getD i 0 ∧ v = rd.getD i 0 ∧
        ∀ j, p1 - 100 ≤ j → j < p1 - 25 → j < rd.length → rd.getD j 0 ≤ v) ∧
    ((qSearch rt rd p1).isSome ↔ 0 < p1 ∧ p1 - 25 < rd.length) ∧
    (∀ t v, qSearch rt rd p1 = some (t, v) → ∃ i, p1 - 25 ≤ i ∧ i < p1 ∧
        i < rd.length ∧ t = rt.getD i 0 ∧ v = rd.getD i 0 ∧
        ∀ j, p1 - 25 ≤ j → j < p1 → j < rd.length → v ≤ rd.getD j 0) ∧
    ((sSearch rt rd p1).isSome ↔ p1 < rd.length) ∧
    (∀ t v, sSearch rt rd p1 = some (t, v) → ∃ i, p1 ≤ i ∧ i < p1 + 25 ∧
        i < rd.length ∧ t = rt.getD i 0 ∧ v = rd.getD i 0 ∧
        ∀ j, p1 ≤ j → j < p1 + 25 → j < rd.length → v ≤ rd.getD j 0) ∧
    ((tSearch rt rd p1).isSome ↔ p1 + 150 < rd.length) ∧
    (∀ t v, tSearch rt rd p1 = some (t, v) → ∃ i, p1 + 80 ≤ i ∧ i < p1 + 150 ∧
        i < rd.length ∧ t = rt.getD i 0 ∧ v = rd.getD i 0 ∧
        ∀ j, p1 + 80 ≤ j → j < p1 + 150 → j < rd.length → rd.getD j 0 ≤ v) :=
  ⟨pSearch_isSome_iff rt rd p1,
   fun t v h => pSearch_some_char rt rd p1 t v h,
   qSearch_isSome_iff rt rd p1,
   fun t v h => qSearch_some_char rt rd p1 t v h,
   sSearch_isSome_iff rt rd p1,
   fun t v h => sSearch_some_char rt rd p1 t v h,
   tSearch_isSome_iff rt rd p1,
   fun t v h => tSearch_some_char rt rd p1 t v h⟩

/-- C6 witness: the P characterization applied to a constant 40-sample
window with `peak1 = 30`. -/
theorem C6_half_open_searches_witness :
    ∃ i, 30 - 100 ≤ i ∧ i < 30 - 25 ∧ i < rdC6w.length ∧
      (2 : ℚ) = rtC6w.getD i 0 ∧ (1 : ℚ) = rdC6w.getD i 0 ∧
      ∀ j, 30 - 100 ≤ j → j < 30 - 25 → j < rdC6w.length → rdC6w.getD j 0 ≤ 1 :=
  (C6_half_open_searches rtC6w rdC6w 30).2.1 2 1 (by with_unfolding_all decide)

/-- C7: the displayed PR / QRS / QT figures always satisfy the claimed
formulas against the current labels: the relation holds at startup and is
preserved by every detection cycle (intervals are recomputed from the
final labels whenever at least 2 peaks exist, and nothing changes
otherwise). -/
theorem C7_interval_formulas : intervalsConsistent initState ∧
    ∀ st td ed, intervalsConsistent st →
      intervalsConsistent (detect_ecg_components st td ed) := by
  refine ⟨⟨rfl, rfl, rfl⟩, ?_⟩
  intro st td ed h
  unfold detect_ecg_components
  split
  · exact h
  · dsimp only
    split
    · exact ⟨rfl, rfl, rfl⟩
    · exact h

/-- C7 witness: the preservation applied to the initial state and an empty
window. -/
theorem C7_interval_formulas_witness :
    intervalsConsistent (detect_ecg_components initState [] []) :=
  C7_interval_formulas.2 initState [] [] (by with_unfolding_all decide)

/-- C8: in both strategies any two consecutive accepted R peaks are at
least `0.4 * fs` samples apart: the spec-modelled `find_peaks` guarantees
`a + dist ≤ b` for its `distance` argument (the code passes `500 * 0.4 =
200`), and the fallback's acceptance rule guarantees the strict
`0.4 * fs < b - a`. -/
theorem C8_min_separation (fd rd : List ℚ) (θ s dist : ℚ) (fs : ℕ) :
    List.Chain' (fun a b : ℕ => (a : ℚ) + dist ≤ (b : ℚ)) (find_peaks_model fd θ dist) ∧
    List.Chain' (fun a b : ℕ => (fs : ℚ) * (2/5) < (b : ℚ) - (a : ℚ))
      (simplePeaks rd fs s) := by
  constructor
  · exact List.Chain'.imp (fun a b hab => of_decide_eq_true hab)
      (chain_selectBySep _ _)
  · exact List.Chain'.imp (fun a b hab => of_decide_eq_true hab)
      (chain_selectBySep _ _)

/-- C9: when the bandpass filter raises, `calculate_heart_rate` falls back
to `_simple_hr_calculation` on the unfiltered window and still produces a
result; the failure is never surfaced to the caller. -/
theorem C9_filter_fallback (td ed : List ℚ) (s fstd : ℚ) (e : Unit)
    (h : 100 ≤ (lastN ed (min 5000 ed.length)).length) :
    calculateHeartRate true (.error e) td ed s fstd
      = some (simpleHRCalculation (lastN ed (min 5000 ed.length)) 500 s) := by
  unfold calculateHeartRate
  rw [if_neg (by omega)]
  rfl

/-- C9 witness: the fallback equation on a 100-sample window. -/
theorem C9_filter_fallback_witness :
    calculateHeartRate true (.error ()) zeros100 zeros100 1 0
      = some (simpleHRCalculation (lastN zeros100 (min 5000 zeros100.length)) 500 1) :=
  C9_filter_fallback zeros100 zeros100 1 0 () (by with_unfolding_all decide)

/-- C10: with `peak1` inside the window, the T component is detected
exactly when `peak1 + 150` (0.30 s at 500 Hz) is strictly below the sample
count — a T window clipped by the end of the data yields no T — while the
S search clamps its window and always returns a position taken from the
truncated segment. -/
theorem C10_t_window_guard (rt rd : List ℚ) (p1 : ℕ) (h : p1 < rd.length) :
    ((tSearch rt rd p1).isSome ↔ p1 + 150 < rd.length) ∧
    (tSearch rt rd p1 = none ↔ rd.length ≤ p1 + 150) ∧
    (sSearch rt rd p1).isSome ∧
    (∀ t v, sSearch rt rd p1 = some (t, v) → ∃ i, p1 ≤ i ∧ i < p1 + 25 ∧
      i < rd.length ∧ v = rd.getD i 0) := by
  refine ⟨tSearch_isSome_iff rt rd p1, ?_, (sSearch_isSome_iff rt rd p1).mpr h, ?_⟩
  · rw [← Option.not_isSome_iff_eq_none, tSearch_isSome_iff]
    omega
  · intro t v hs
    rcases sSearch_some_char rt rd p1 t v hs with ⟨i, h1, h2, h3, _, h5, _⟩
    exact ⟨i, h1, h2, h3, h5⟩

/-- C10 witness: on a 160-sample window with `peak1 = 20`, the T window
(ending at sample 170) is clipped, so T is undetected while S is
detected. -/
theorem C10_t_window_guard_witness :
    ((tSearch tdC10 rdC10 20).isSome ↔ 20 + 150 < rdC10.length) ∧
    (sSearch tdC10 rdC10 20).isSome :=
  ⟨(C10_t_window_guard tdC10 rdC10 20 (by with_unfolding_all decide)).1,
   (C10_t_window_guard tdC10 rdC10 20 (by with_unfolding_all decide)).2.2.1⟩
